import Mathlib

/-!
Verification of the pelikan-twitter cache server against its specification.

The development shallowly embeds the Rust source into Lean:
* bytes are `Nat` values (always < 256 in the inputs we consider),
* byte buffers are `List Nat`,
* machine integers are `Nat` with explicit two's-complement reasoning where
  the source casts between widths,
* fallible code returns `Except`/`Option`,
* stateful code is written as explicit state passing.

Each section names the Rust source file it embeds.
-/

namespace Pelikan

/-- Byte image of an ASCII string (`Char.toNat` equals the byte for ASCII). -/
def bytesOf (s : String) : List Nat :=
  s.data.map Char.toNat

/-- `slice buf a b` models the Rust slice `buf[a..b]`. -/
def slice (buf : List Nat) (a b : Nat) : List Nat :=
  (buf.drop a).take (b - a)

/-!
## storage/seg/src/ttl_buckets/ttl_buckets.rs — bucket index

Constants from the source:
`N_BUCKET_PER_STEP = 256`, interval bit widths 3, 7, 11, 15,
`TTL_BOUNDARY_k = 1 << (bits_k + 8)`, 1024 buckets in total.

`get_bucket_index` receives a `Duration` (rustcommon coarse duration, whole
seconds in a `u32`) and computes `let ttl = ttl.as_secs() as i32`.  We model
the `u32` seconds value as `secs : Nat` with `secs < 2^32`; the `as i32`
reinterpretation makes `ttl <= 0` hold exactly when `secs = 0` or the sign
bit is set (`2^31 <= secs`), and for positive `ttl` the i32 bit pattern and
arithmetic agree with the `Nat` value, so masks and shifts are the `Nat`
operations below.  The source masks are `!(TTL_BOUNDARY_k - 1)`, whose u32
values are `2^32 - 2^11`, `2^32 - 2^15`, and `2^32 - 2^19`.
-/

def N_BUCKET_PER_STEP : Nat := 256

def MAX_N_TTL_BUCKET : Nat := N_BUCKET_PER_STEP * 4

def MAX_TTL_BUCKET_IDX : Nat := MAX_N_TTL_BUCKET - 1

/-- Embedding of `TtlBuckets::get_bucket_index` (ttl_buckets.rs lines
202-220); `secs` is the u32 returned by `ttl.as_secs()`. -/
def get_bucket_index (secs : Nat) : Nat :=
  if secs = 0 ∨ 2 ^ 31 ≤ secs then
    MAX_N_TTL_BUCKET - 1
  else if secs &&& (2 ^ 32 - 2 ^ 11) = 0 then
    secs >>> 3
  else if secs &&& (2 ^ 32 - 2 ^ 15) = 0 then
    (secs >>> 7) + N_BUCKET_PER_STEP
  else if secs &&& (2 ^ 32 - 2 ^ 19) = 0 then
    (secs >>> 11) + N_BUCKET_PER_STEP * 2
  else
    -- source: `let bucket_idx = (ttl >> 15) + 256 * 3`, clamped to the last index
    if (secs >>> 15) + N_BUCKET_PER_STEP * 3 > MAX_TTL_BUCKET_IDX then MAX_TTL_BUCKET_IDX
    else (secs >>> 15) + N_BUCKET_PER_STEP * 3

/-- The bucket index the claim describes, read off the spec's sentences: TTL 0
or at least 8 388 608 s maps to the last bucket, and each of the four ranges
shifts by its interval bit width and offsets by 256 per range.  (The claim as
frozen says "exceeds 8 388 608"; the amendment moves the single boundary
point 8 388 608 itself into the last bucket, which is what the code's clamp
does.) -/
def spec_bucket_index (secs : Nat) : Nat :=
  if secs = 0 ∨ 8388608 ≤ secs then 1023
  else if secs < 2048 then secs >>> 3
  else if secs < 32768 then (secs >>> 7) + 256
  else if secs < 524288 then (secs >>> 11) + 512
  else (secs >>> 15) + 768

/-- The three masks have exactly the bits `lo..31` set, for `lo` = 11, 15, 19. -/
lemma testBit_mask_eleven : ∀ i < 32, Nat.testBit (2 ^ 32 - 2 ^ 11) i = decide (11 ≤ i) := by
  decide

lemma testBit_mask_fifteen : ∀ i < 32, Nat.testBit (2 ^ 32 - 2 ^ 15) i = decide (15 ≤ i) := by
  decide

lemma testBit_mask_nineteen : ∀ i < 32, Nat.testBit (2 ^ 32 - 2 ^ 19) i = decide (19 ≤ i) := by
  decide

/-- For `s < 2^32`, masking with the high bits `lo..31` is zero iff `s < 2^lo`.
Stated generically; instantiated at the three concrete masks. -/
lemma land_high_mask_eq_zero_iff (lo : Nat)
    (hmask : ∀ i < 32, Nat.testBit (2 ^ 32 - 2 ^ lo) i = decide (lo ≤ i))
    (s : Nat) (hs : s < 2 ^ 32) :
    s &&& (2 ^ 32 - 2 ^ lo) = 0 ↔ s < 2 ^ lo := by
  constructor
  · intro h
    by_contra hge
    push_neg at hge
    have hs0 : s ≠ 0 := by
      have hpos : 0 < 2 ^ lo := Nat.pos_pow_of_pos lo (by norm_num)
      omega
    -- the leading bit of s sits in the mask range
    set i := Nat.log2 s with hi
    have h1 : 2 ^ i ≤ s := Nat.log2_self_le hs0
    have h2 : s < 2 ^ (i + 1) := Nat.lt_log2_self
    have hilo : lo ≤ i := by
      by_contra hlt
      push_neg at hlt
      have : 2 ^ (i + 1) ≤ 2 ^ lo := Nat.pow_le_pow_right (by norm_num) hlt
      omega
    have hi32 : i < 32 := by
      by_contra hge32
      push_neg at hge32
      have : (2 : Nat) ^ 32 ≤ 2 ^ i := Nat.pow_le_pow_right (by norm_num) hge32
      omega
    have hbit_s : s.testBit i = true := by
      rw [Nat.testBit_to_div_mod]
      have hdiv : s / 2 ^ i = 1 := by
        have hlt2 : s / 2 ^ i < 2 := by
          rw [Nat.div_lt_iff_lt_mul (by positivity)]
          calc s < 2 ^ (i + 1) := h2
          _ = 2 * 2 ^ i := by ring
        have hge1 : 1 ≤ s / 2 ^ i := (Nat.one_le_div_iff (by positivity)).mpr h1
        omega
      simp [hdiv]
    have hbit_m : Nat.testBit (2 ^ 32 - 2 ^ lo) i = true := by
      rw [hmask i hi32]
      simpa using hilo
    have : (s &&& (2 ^ 32 - 2 ^ lo)).testBit i = true := by
      rw [Nat.testBit_land, hbit_s, hbit_m]
      rfl
    rw [h] at this
    simp [Nat.zero_testBit] at this
  · intro h
    apply Nat.eq_of_testBit_eq
    intro i
    rw [Nat.testBit_land, Nat.zero_testBit]
    by_cases hi : i < 32
    · by_cases hge : lo ≤ i
      · have hbs : s.testBit i = false := by
          apply Nat.testBit_lt_two_pow
          calc s < 2 ^ lo := h
          _ ≤ 2 ^ i := Nat.pow_le_pow_right (by norm_num) hge
        rw [hbs, Bool.false_and]
      · have hbm : Nat.testBit (2 ^ 32 - 2 ^ lo) i = false := by
          rw [hmask i hi]
          simpa using hge
        rw [hbm, Bool.and_false]
    · have hbs : s.testBit i = false := by
        apply Nat.testBit_lt_two_pow
        calc s < 2 ^ 32 := hs
        _ ≤ 2 ^ i := Nat.pow_le_pow_right (by norm_num) (by omega)
      rw [hbs, Bool.false_and]

/-- C1, amended: `get_bucket_index` agrees with the claim's range dispatch
once the single boundary TTL of exactly 8 388 608 s is also sent to the last
bucket (the code clamps `(t >> 15) + 768 = 1024` down to 1023 there), and the
returned index is always in bounds for the 1024-element `buckets` array that
`get_mut_bucket` indexes without a bounds check. -/
theorem C1_bucket_index_amended (s : Nat) (hs : s < 2 ^ 32) :
    get_bucket_index s = spec_bucket_index s ∧ get_bucket_index s < 1024 := by
  have m1 := land_high_mask_eq_zero_iff 11 testBit_mask_eleven s hs
  have m2 := land_high_mask_eq_zero_iff 15 testBit_mask_fifteen s hs
  have m3 := land_high_mask_eq_zero_iff 19 testBit_mask_nineteen s hs
  have n11 : (2 : Nat) ^ 11 = 2048 := by norm_num
  have n15 : (2 : Nat) ^ 15 = 32768 := by norm_num
  have n19 : (2 : Nat) ^ 19 = 524288 := by norm_num
  have d3 : s >>> 3 = s / 8 := by rw [Nat.shiftRight_eq_div_pow]
  have d7 : s >>> 7 = s / 128 := by rw [Nat.shiftRight_eq_div_pow]
  have d11 : s >>> 11 = s / 2048 := by rw [Nat.shiftRight_eq_div_pow]
  have d15 : s >>> 15 = s / 32768 := by rw [Nat.shiftRight_eq_div_pow]
  have n31 : (2 : Nat) ^ 31 = 2147483648 := by norm_num
  simp only [get_bucket_index, spec_bucket_index, N_BUCKET_PER_STEP, MAX_N_TTL_BUCKET,
    MAX_TTL_BUCKET_IDX]
  simp only [m1, m2, m3]
  simp only [n11, n15, n19, n31, d3, d7, d11, d15]
  constructor
  · split_ifs <;> omega
  · split_ifs <;> omega

/-- C1 counterexample to the claim as frozen: a TTL of exactly 8 388 608 s
lies in the fourth range (524 288 – 8 388 608 s, bit width 15), for which the
claim predicts index `(t >> 15) + 256 * 3 = 1024`; the code instead clamps
and returns 1023. -/
theorem C1_bucket_index_counterexample :
    get_bucket_index 8388608 = 1023 ∧ (8388608 >>> 15) + 256 * 3 = 1024 ∧
      get_bucket_index 8388608 ≠ (8388608 >>> 15) + 256 * 3 := by
  refine ⟨by decide, by decide, by decide⟩

/-- C1 witness: the amended theorem applied at the concrete TTL of 100 s. -/
theorem C1_bucket_index_amended_witness :
    get_bucket_index 100 = spec_bucket_index 100 ∧ get_bucket_index 100 < 1024 :=
  C1_bucket_index_amended 100 (by decide)

/-!
## storage/seg/src/ttl_buckets/ttl_buckets.rs — demolish / restore (C2)

`demolish` (lines 145-200) and `restore` (lines 89-141) move raw bytes
between the in-memory `TtlBuckets` and a file mapping: the `Instant`
`last_expired` is written at offset 0, and the 1024 `TtlBucket` records at
offsets `last_expired_size + bucket_size * id`.  Both functions only ever
treat `Instant` and `TtlBucket` as opaque byte blocks (`size_of`-sized
`copy_from_slice`s through raw pointers), so the embedding models a
`TtlBucket` record and the `Instant` directly by their byte images, and the
mmapped file by the byte list it holds.  `File::create(file, size, true)`
yields a mapping of exactly `ttl_buckets_struct_size` bytes (zero-filled for
a fresh file), which `demolish` then overwrites region by region.
-/

structure TtlBucketsB where
  buckets : List (List Nat)
  last_expired : List Nat
deriving DecidableEq, Repr

/-- `data[start..start+src.length].copy_from_slice(src)`. -/
def writeAt (data : List Nat) (start : Nat) (src : List Nat) : List Nat :=
  data.take start ++ src ++ data.drop (start + src.length)

/-- The bucket-store loop of `demolish`: record `id` goes at
`offset + bucket_size * id`. -/
def writeBuckets (data : List Nat) (off bucket_size : Nat) (bs : List (List Nat)) :
    List Nat :=
  match bs with
  | [] => data
  | b :: t => writeBuckets (writeAt data off b) (off + bucket_size) bucket_size t

/-- Embedding of `TtlBuckets::demolish` with `Some` path: the resulting file
contents. -/
def demolish (tb : TtlBucketsB) (bucket_size les : Nat) : List Nat :=
  writeBuckets (writeAt (List.replicate (MAX_N_TTL_BUCKET * bucket_size + les) 0) 0
    tb.last_expired) les bucket_size tb.buckets

/-- The bucket-read loop of `restore`: record `id` is the byte slice at
`offset + bucket_size * id`. -/
def readBuckets (data : List Nat) (off bucket_size n : Nat) : List (List Nat) :=
  match n with
  | 0 => []
  | Nat.succ m => slice data off (off + bucket_size) :: readBuckets data (off + bucket_size) bucket_size m

/-- Embedding of `TtlBuckets::restore` with `Some` path from the given file
contents. -/
def restore (data : List Nat) (bucket_size les : Nat) : TtlBucketsB :=
  { buckets := readBuckets data les bucket_size MAX_N_TTL_BUCKET
    last_expired := slice data 0 les }

lemma length_writeAt (data src : List Nat) (start : Nat)
    (h : start + src.length ≤ data.length) :
    (writeAt data start src).length = data.length := by
  simp only [writeAt, List.length_append, List.length_take, List.length_drop]
  omega

lemma take_writeAt (data src : List Nat) (start b : Nat) (hb : b ≤ start)
    (hs : start ≤ data.length) :
    (writeAt data start src).take b = data.take b := by
  have hlen : (data.take start).length = start := by
    simp [List.length_take]
    omega
  rw [writeAt, List.append_assoc, List.take_append_eq_append_take, hlen,
    Nat.sub_eq_zero_of_le hb]
  simp [List.take_take, Nat.min_eq_left hb]

lemma slice_writeAt_self (data src : List Nat) (start : Nat)
    (h : start + src.length ≤ data.length) :
    slice (writeAt data start src) start (start + src.length) = src := by
  have hlen : (data.take start).length = start := by
    simp [List.length_take]
    omega
  rw [slice, Nat.add_sub_cancel_left, writeAt, List.append_assoc, List.drop_left' hlen,
    List.take_left' rfl]

lemma slice_congr_of_take_eq (a b : Nat) (l₁ l₂ : List Nat) (h : l₁.take b = l₂.take b) :
    slice l₁ a b = slice l₂ a b := by
  have h₁ : slice l₁ a b = (l₁.take b).drop a := by
    rw [slice, ← List.drop_take]
  have h₂ : slice l₂ a b = (l₂.take b).drop a := by
    rw [slice, ← List.drop_take]
  rw [h₁, h₂, h]

/-- Reading the bucket records back after the store loop recovers them, and
everything below `off` is untouched. -/
lemma writeBuckets_spec (bucket_size : Nat) :
    ∀ (bs : List (List Nat)) (data : List Nat) (off : Nat),
      (∀ b ∈ bs, b.length = bucket_size) →
      off + bs.length * bucket_size ≤ data.length →
      (writeBuckets data off bucket_size bs).length = data.length ∧
        (writeBuckets data off bucket_size bs).take off = data.take off ∧
        readBuckets (writeBuckets data off bucket_size bs) off bucket_size bs.length = bs := by
  intro bs
  induction bs with
  | nil =>
    intro data off _ _
    exact ⟨rfl, rfl, rfl⟩
  | cons b t ih =>
    intro data off hall hlen
    have hb : b.length = bucket_size := hall b (by simp)
    have hlen1 : off + b.length ≤ data.length := by
      simp only [List.length_cons] at hlen
      have : bucket_size ≤ (t.length + 1) * bucket_size := by
        have : 1 * bucket_size ≤ (t.length + 1) * bucket_size :=
          Nat.mul_le_mul_right bucket_size (by omega)
        omega
      omega
    have hd1len : (writeAt data off b).length = data.length := length_writeAt data b off hlen1
    have ihsp := ih (writeAt data off b) (off + bucket_size)
      (fun x hx => hall x (by simp [hx]))
      (by
        rw [hd1len]
        simp only [List.length_cons] at hlen
        have : (t.length + 1) * bucket_size = t.length * bucket_size + bucket_size := by ring
        omega)
    obtain ⟨ihlen, ihtake, ihread⟩ := ihsp
    simp only [writeBuckets, List.length_cons, readBuckets]
    refine ⟨by rw [ihlen, hd1len], ?_, ?_⟩
    · have h1 : (writeBuckets (writeAt data off b) (off + bucket_size) bucket_size t).take off =
          ((writeBuckets (writeAt data off b) (off + bucket_size) bucket_size t).take
            (off + bucket_size)).take off := by
        rw [List.take_take, Nat.min_eq_left (by omega)]
      rw [h1, ihtake, List.take_take, Nat.min_eq_left (by omega),
        take_writeAt data b off off (le_refl off) (by omega)]
    · rw [List.cons.injEq]
      constructor
      · have hsl := slice_congr_of_take_eq off (off + bucket_size) _ _ ihtake
        rw [hsl]
        have hws := slice_writeAt_self data b off hlen1
        rw [hb] at hws
        exact hws
      · exact ihread

/-- C2: `demolish` followed by `restore` on the same file is the identity on
the persisted state — the 1024 bucket byte records and the `last_expired`
bytes come back byte-identical.  `bucket_size` and `les` are
`size_of::<TtlBucket>()` and `size_of::<Instant>()`. -/
theorem C2_demolish_restore_roundtrip (tb : TtlBucketsB) (bucket_size les : Nat)
    (hn : tb.buckets.length = MAX_N_TTL_BUCKET)
    (hb : ∀ b ∈ tb.buckets, b.length = bucket_size)
    (hl : tb.last_expired.length = les) :
    restore (demolish tb bucket_size les) bucket_size les = tb := by
  have htotal : (List.replicate (MAX_N_TTL_BUCKET * bucket_size + les) (0 : Nat)).length =
      MAX_N_TTL_BUCKET * bucket_size + les := by simp
  have hle : (0 : Nat) + tb.last_expired.length ≤
      (List.replicate (MAX_N_TTL_BUCKET * bucket_size + les) (0 : Nat)).length := by
    rw [htotal, hl]
    omega
  have hd1len := length_writeAt _ tb.last_expired 0 hle
  have hsp := writeBuckets_spec bucket_size tb.buckets
    (writeAt (List.replicate (MAX_N_TTL_BUCKET * bucket_size + les) 0) 0 tb.last_expired)
    les (by exact hb)
    (by
      rw [hd1len, htotal, hn]
      omega)
  obtain ⟨hWlen, hWtake, hWread⟩ := hsp
  obtain ⟨bks, lex⟩ := tb
  simp only at hn hb hl hWread hWtake
  simp only [restore, demolish, TtlBucketsB.mk.injEq]
  constructor
  · rw [hn] at hWread
    exact hWread
  · have hsl := slice_congr_of_take_eq 0 les _ _
      (by
        have h1 : (writeBuckets
            (writeAt (List.replicate (MAX_N_TTL_BUCKET * bucket_size + les) 0) 0 lex)
            les bucket_size bks).take les =
            (writeAt (List.replicate (MAX_N_TTL_BUCKET * bucket_size + les) 0) 0 lex).take les :=
          hWtake
        exact h1)
    rw [hsl]
    have := slice_writeAt_self (List.replicate (MAX_N_TTL_BUCKET * bucket_size + les) 0) lex 0
      (by simpa using hle)
    rw [hl] at this
    simpa using this

/-- Concrete `TtlBuckets` byte image used by the C2 witness: 1024 one-byte
bucket records and a one-byte `last_expired`. -/
def tbWitnessC2 : TtlBucketsB :=
  { buckets := List.replicate MAX_N_TTL_BUCKET [7]
    last_expired := [9] }

/-- C2 witness: the round-trip theorem applied at a concrete instance. -/
theorem C2_demolish_restore_roundtrip_witness :
    restore (demolish tbWitnessC2 1 1) 1 1 = tbWitnessC2 :=
  C2_demolish_restore_roundtrip tbWitnessC2 1 1
    (by simp [tbWitnessC2])
    (by
      intro b hbmem
      simp [tbWitnessC2, List.mem_replicate] at hbmem
      simp [hbmem])
    (by simp [tbWitnessC2])

/-!
## protocol/src/memcache/wire/request/parse.rs (C3, C4, C5, C10)

The incremental Memcache request parser.  Buffers are byte lists; the two
`Windows` iterators of `ParseState` are modelled by absolute scan positions:
`position` on a one-byte window iterator that has already consumed up to
index `i` finds the least space at index `p ≥ i` and returns the relative
offset `p - i`, leaving the iterator at `p + 1` (and similarly for the
two-byte CRLF window).  The loops in `parse_command`/`parse_get` advance the
scan position by at least one per iteration, so they are written with an
explicit fuel that the callers instantiate with `buf.length + 1`, which is
provably sufficient.
-/

def MAX_COMMAND_LEN : Nat := 16

def MAX_KEY_LEN : Nat := 250

def MAX_BATCH_SIZE : Nat := 1024

def U32_MAX : Nat := 2 ^ 32 - 1

def U64_MAX : Nat := 2 ^ 64 - 1

def USIZE_MAX : Nat := 2 ^ 64 - 1

def NOREPLY : List Nat := bytesOf "noreply"

/-- Scan a suffix for the first space byte, returning its offset. -/
def goSpace : List Nat → Option Nat
  | [] => none
  | b :: t => if b = 32 then some 0 else (goSpace t).map (· + 1)

/-- Scan a suffix for the first CRLF two-byte window, returning its offset. -/
def goCrlf : List Nat → Option Nat
  | a :: b :: t => if a = 13 ∧ b = 10 then some 0 else (goCrlf (b :: t)).map (· + 1)
  | _ => none

/-- Absolute index of the first space at position `≥ i`. -/
def findSpaceFrom (buf : List Nat) (i : Nat) : Option Nat :=
  (goSpace (buf.drop i)).map (· + i)

/-- Absolute index of the first CRLF starting at position `≥ i`. -/
def findCrlfFrom (buf : List Nat) (i : Nat) : Option Nat :=
  (goCrlf (buf.drop i)).map (· + i)

/-- The parser's error type (spec §4.6: `ParseError::{Incomplete, Invalid}`;
an unknown command word is also surfaced as `Invalid`). -/
inductive ParseError where
  | Incomplete
  | Invalid
deriving DecidableEq, Repr

inductive MemcacheCommand where
  | Get
  | Gets
  | Set
  | Add
  | Replace
  | Cas
  | Delete
  | Quit
deriving DecidableEq, Repr

/-- Modelled from the spec: the `TryFrom<&[u8]>` impl for `MemcacheCommand`
is not under `src/`; the spec's grammar (§4.6) lists exactly these eight
command words, and any other byte sequence is a protocol error. -/
def MemcacheCommand.tryFrom (bs : List Nat) : Except ParseError MemcacheCommand :=
  if bs = bytesOf "get" then .ok .Get
  else if bs = bytesOf "gets" then .ok .Gets
  else if bs = bytesOf "set" then .ok .Set
  else if bs = bytesOf "add" then .ok .Add
  else if bs = bytesOf "replace" then .ok .Replace
  else if bs = bytesOf "cas" then .ok .Cas
  else if bs = bytesOf "delete" then .ok .Delete
  else if bs = bytesOf "quit" then .ok .Quit
  else .error .Invalid

/-- The keys-counting loop in `parse_command` (lines 100-117), reached when
the buffer holds a space but no CRLF yet; it always ends in a `ParseError`. -/
def scanKeysNoCrlf (buf : List Nat) : Nat → Nat → Nat → Nat → ParseError
  | 0, _, _, _ => ParseError.Invalid
  | fuel + 1, sing, keys, this_space =>
    match findSpaceFrom buf sing with
    | some p =>
      if p - sing > MAX_KEY_LEN then ParseError.Invalid
      else if keys + 1 ≥ MAX_BATCH_SIZE then ParseError.Invalid
      else scanKeysNoCrlf buf fuel (p + 1) (keys + 1) (this_space + (p - sing))
    | none =>
      if buf.length > MAX_KEY_LEN + this_space then ParseError.Invalid
      else ParseError.Incomplete

/-- Embedding of `parse_command` (parse.rs lines 88-141). -/
def parse_command (buf : List Nat) : Except ParseError MemcacheCommand :=
  match findCrlfFrom buf 0, findSpaceFrom buf 0 with
  | some next_crlf, some next_space =>
    MemcacheCommand.tryFrom (slice buf 0 (min next_crlf next_space))
  | none, some next_space =>
    match MemcacheCommand.tryFrom (slice buf 0 next_space) with
    | .error e => .error e
    | .ok cmd =>
      match cmd with
      | .Get | .Gets =>
        .error (scanKeysNoCrlf buf (buf.length + 1) (next_space + 1) 0 next_space)
      | _ =>
        if buf.length > MAX_COMMAND_LEN + MAX_KEY_LEN + 128 then .error .Invalid
        else .error .Incomplete
  | some next_crlf, none =>
    match MemcacheCommand.tryFrom (slice buf 0 next_crlf) with
    | .error e => .error e
    | .ok cmd =>
      match cmd with
      | .Quit => .ok .Quit
      | _ => .error .Invalid
  | none, none =>
    if buf.length > MAX_COMMAND_LEN then .error .Invalid
    else .error .Incomplete

structure MemcacheEntry where
  key : List Nat
  value : List Nat
  ttl : Option Nat
  flags : Nat
  cas : Option Nat
deriving DecidableEq, Repr

inductive MemcacheRequest where
  | Get (keys : List (List Nat))
  | Gets (keys : List (List Nat))
  | Set (entry : MemcacheEntry) (noreply : Bool)
  | Add (entry : MemcacheEntry) (noreply : Bool)
  | Replace (entry : MemcacheEntry) (noreply : Bool)
  | Cas (entry : MemcacheEntry) (noreply : Bool)
  | Delete (key : List Nat) (noreply : Bool)
deriving DecidableEq, Repr

structure ParseOk where
  message : MemcacheRequest
  consumed : Nat
deriving DecidableEq, Repr

/-- The key-collecting loop of `parse_get` (lines 156-193).  State: `sing` is
the single-byte window iterator position, `previous` the start of the key
being read, `keys` the keys collected so far. -/
def getKeysLoop (buf : List Nat) (line_end : Nat) :
    Nat → Nat → Nat → List (List Nat) → Except ParseError (List (List Nat))
  | 0, _, _, _ => .error .Invalid
  | fuel + 1, sing, previous, keys =>
    match findSpaceFrom buf sing with
    | some p =>
      -- `key_end` is the relative offset returned by `next_space()`
      if previous + (p - sing) < line_end then
        if p - sing > 0 then
          if (previous + (p - sing)) - previous > MAX_KEY_LEN then .error .Invalid
          else
            -- push the key, then the batch-size check at the loop bottom
            if (keys ++ [slice buf previous (previous + (p - sing))]).length ≥ MAX_BATCH_SIZE then
              .error .Invalid
            else
              getKeysLoop buf line_end fuel (p + 1) (previous + (p - sing) + 1)
                (keys ++ [slice buf previous (previous + (p - sing))])
        else .error .Invalid
      else
        if line_end > previous then
          if line_end - previous > MAX_KEY_LEN then .error .Invalid
          else .ok (keys ++ [slice buf previous line_end])
        else .ok keys
    | none =>
      if line_end > previous then
        if line_end - previous > MAX_KEY_LEN then .error .Invalid
        else .ok (keys ++ [slice buf previous line_end])
      else .ok keys

/-- Embedding of `parse_get` (lines 144-206).  The source unwraps the CRLF
and space positions, which `parse_command` has already established to exist;
the impossible branch is mapped to `Invalid`. -/
def parse_get (buf : List Nat) : Except ParseError ParseOk :=
  match findCrlfFrom buf 0, findSpaceFrom buf 0 with
  | some line_end, some cmd_end =>
    match getKeysLoop buf line_end (buf.length + 1) (cmd_end + 1) (cmd_end + 1) [] with
    | .error e => .error e
    | .ok keys =>
      if keys.isEmpty then .error .Invalid
      else .ok ⟨.Get keys, line_end + 2⟩
  | _, _ => .error .Invalid

/-- Embedding of `parse_gets` (lines 208-218). -/
def parse_gets (buf : List Nat) : Except ParseError ParseOk :=
  match parse_get buf with
  | .error e => .error e
  | .ok r =>
    match r.message with
    | .Get keys => .ok ⟨.Gets keys, r.consumed⟩
    | _ => .error .Invalid  -- source: unreachable!()

inductive TimeType where
  | Unix
  | Memcache
deriving DecidableEq, Repr

/-- The TTL computation of `parse_set` (lines 252-260); `expiry` and
`recent_unix()` are u32 values, `saturating_sub` on `Nat` is `Nat`
subtraction. -/
def computeTtl (time_type : TimeType) (expiry now_unix : Nat) : Option Nat :=
  if time_type = TimeType.Unix ∨
      (time_type = TimeType.Memcache ∧ expiry ≥ 60 * 60 * 24 * 30) then
    some (expiry - now_unix)
  else if expiry = 0 then none
  else some expiry

/-- Digit-string value, most significant first; `none` on a non-digit. -/
def digitsVal : List Nat → Nat → Option Nat
  | [], acc => some acc
  | b :: t, acc => if 48 ≤ b ∧ b ≤ 57 then digitsVal t (acc * 10 + (b - 48)) else none

/-- Rust's `str::parse` for an unsigned integer type with maximum `bound`:
optional leading `+`, at least one decimal digit, error on overflow.  A
byte slice that is not valid UTF-8 cannot be all digits, so the source's
`from_utf8` failure collapses into the same `none`. -/
def parseUint (bound : Nat) (bs : List Nat) : Option Nat :=
  match (match bs with | 43 :: t => t | _ => bs) with
  | [] => none
  | ds =>
    match digitsVal ds 0 with
    | none => none
    | some v => if v ≤ bound then some v else none

/-- Everything `parse_set` (lines 220-339) computes from the request line
before looking at the data block: positions, parsed numeric fields, the TTL,
the `noreply` flag and the total `consumed` count. -/
structure SetHeader where
  line_end : Nat
  cmd_end : Nat
  key_end : Nat
  flags : Nat
  expiry : Nat
  ttl : Option Nat
  noreply : Bool
  bytes : Nat
  casv : Option Nat
  consumed : Nat
deriving DecidableEq, Repr

/-- `parse_set` lines 229-230: the unwrapped CRLF/space positions (present
whenever `parse_command` dispatched here). -/
def setAnchors (buf : List Nat) : Except ParseError (Nat × Nat) :=
  match findCrlfFrom buf 0, findSpaceFrom buf 0 with
  | some line_end, some cmd_end => .ok (line_end, cmd_end)
  | _, _ => .error .Invalid

/-- `parse_set` lines 232-239: key span.  Returns `(key_end, iterator)`. -/
def setKey (buf : List Nat) (cmd_end : Nat) : Except ParseError (Nat × Nat) :=
  match findSpaceFrom buf (cmd_end + 1) with
  | none => .error .Invalid
  | some p1 =>
    if (p1 - (cmd_end + 1)) + cmd_end + 1 ≤ cmd_end + 1 then .error .Invalid
    else if ((p1 - (cmd_end + 1)) + cmd_end + 1) - (cmd_end + 1) > MAX_KEY_LEN then
      .error .Invalid
    else .ok ((p1 - (cmd_end + 1)) + cmd_end + 1, p1)

/-- `parse_set` lines 241-251: a space-terminated numeric field (used for
`flags` and `expiry`).  Returns `(value, field_end, iterator)`. -/
def setNum (bound : Nat) (buf : List Nat) (prev_end pos : Nat) :
    Except ParseError (Nat × Nat × Nat) :=
  match findSpaceFrom buf (pos + 1) with
  | none => .error .Invalid
  | some p =>
    match parseUint bound (slice buf (prev_end + 1) ((p - (pos + 1)) + prev_end + 1)) with
    | none => .error .Invalid
    | some v => .ok (v, (p - (pos + 1)) + prev_end + 1, p)

/-- `parse_set` lines 262-286: locate `bytes_end` and the `noreply` token for
the non-cas form.  Returns `(bytes_end, noreply, iterator)`. -/
def setBytesEnd (buf : List Nat) (casFlag : Bool) (line_end expiry_end pos : Nat) :
    Except ParseError (Nat × Bool × Nat) :=
  if casFlag then
    match findSpaceFrom buf (pos + 1) with
    | none => .error .Invalid
    | some p4 => .ok ((p4 - (pos + 1)) + expiry_end + 1, false, p4 + 1)
  else
    match findSpaceFrom buf (pos + 1) with
    | some p4 =>
      if line_end < (p4 - (pos + 1)) + expiry_end + 1 then .ok (line_end, false, p4 + 1)
      else if line_end - ((p4 - (pos + 1)) + expiry_end + 1) = 1 then
        .ok ((p4 - (pos + 1)) + expiry_end + 1, false, p4 + 1)
      else if line_end - (((p4 - (pos + 1)) + expiry_end + 1) + 1) = NOREPLY.length ∨
          line_end - (((p4 - (pos + 1)) + expiry_end + 1) + 1) = NOREPLY.length + 1 then
        if slice buf (((p4 - (pos + 1)) + expiry_end + 1) + 1)
            (((p4 - (pos + 1)) + expiry_end + 1) + 1 + NOREPLY.length) = NOREPLY then
          .ok ((p4 - (pos + 1)) + expiry_end + 1, true, p4 + 1)
        else .error .Invalid
      else .error .Invalid
    | none => .ok (line_end, false, buf.length)

/-- `parse_set` lines 288-302: the byte-count field. -/
def setBytes (buf : List Nat) (max_value_size expiry_end bytes_end : Nat) :
    Except ParseError Nat :=
  if expiry_end + 1 ≥ bytes_end then .error .Invalid
  else
    match parseUint USIZE_MAX (slice buf (expiry_end + 1) bytes_end) with
    | none => .error .Invalid
    | some bytes => if bytes > max_value_size then .error .Invalid else .ok bytes

/-- `parse_set` lines 304-328: locate `cas_end` for the cas form, possibly
consuming a trailing `noreply`.  Returns `(cas_end, noreply)`. -/
def setCasEnd (buf : List Nat) (casFlag : Bool) (line_end bytes_end pos : Nat)
    (noreply : Bool) : Except ParseError (Option Nat × Bool) :=
  if ¬casFlag then .ok (none, noreply)
  else
    match findSpaceFrom buf pos with
    | some p5 =>
      if line_end > (p5 - pos) + bytes_end + 1 then
        if line_end - ((p5 - pos) + bytes_end + 1) = 1 then
          .ok (some ((p5 - pos) + bytes_end + 1), noreply)
        else if line_end - (((p5 - pos) + bytes_end + 1) + 1) = NOREPLY.length ∨
            line_end - (((p5 - pos) + bytes_end + 1) + 1) = NOREPLY.length + 1 then
          if slice buf (((p5 - pos) + bytes_end + 1) + 1)
              (((p5 - pos) + bytes_end + 1) + 1 + NOREPLY.length) = NOREPLY then
            .ok (some ((p5 - pos) + bytes_end + 1), true)
          else .error .Invalid
        else .error .Invalid
      else .ok (some line_end, noreply)
    | none => .ok (some line_end, noreply)

/-- `parse_set` lines 330-339: the cas counter field. -/
def setCasVal (buf : List Nat) (bytes_end : Nat) (cas_end : Option Nat) :
    Except ParseError (Option Nat) :=
  match cas_end with
  | none => .ok none
  | some ce =>
    if bytes_end + 1 ≥ ce then .error .Invalid
    else
      match parseUint U64_MAX (slice buf (bytes_end + 1) ce) with
      | none => .error .Invalid
      | some v => .ok (some v)

/-- The request-line half of `parse_set` (everything before line 341).  In
the tuples: `a = (line_end, cmd_end)`, `k = (key_end, iterator)`,
`f = (flags, flags_end, iterator)`, `e = (expiry, expiry_end, iterator)`,
`be = (bytes_end, noreply, iterator)`, `cn = (cas_end, noreply)`. -/
def parse_set_header (buf : List Nat) (casFlag : Bool) (max_value_size : Nat)
    (time_type : TimeType) (now_unix : Nat) : Except ParseError SetHeader :=
  (setAnchors buf).bind fun a =>
  (setKey buf a.2).bind fun k =>
  (setNum U32_MAX buf k.1 k.2).bind fun f =>
  (setNum U32_MAX buf f.2.1 f.2.2).bind fun e =>
  (setBytesEnd buf casFlag a.1 e.2.1 e.2.2).bind fun be =>
  (setBytes buf max_value_size e.2.1 be.1).bind fun bytes =>
  (setCasEnd buf casFlag a.1 be.1 be.2.2 be.2.1).bind fun cn =>
  (setCasVal buf be.1 cn.1).bind fun casv =>
  .ok { line_end := a.1, cmd_end := a.2, key_end := k.1, flags := f.1, expiry := e.1,
        ttl := computeTtl time_type e.1 now_unix, noreply := cn.2, bytes := bytes,
        casv := casv, consumed := a.1 + 2 + bytes + 2 }

/-- The `MemcacheEntry` assembled at lines 343-354. -/
def mkEntry (buf : List Nat) (h : SetHeader) : MemcacheEntry :=
  { key := slice buf (h.cmd_end + 1) h.key_end
    value := slice buf (h.line_end + 2) (h.line_end + 2 + h.bytes)
    ttl := h.ttl
    flags := h.flags
    cas := h.casv }

/-- Embedding of `parse_set` (lines 220-370): parse the request line, then
require the buffer to reach `consumed = line_end + 2 + bytes + 2`; the two
bytes after the value are consumed without inspection. -/
def parse_set (buf : List Nat) (casFlag : Bool) (max_value_size : Nat)
    (time_type : TimeType) (now_unix : Nat) : Except ParseError ParseOk :=
  (parse_set_header buf casFlag max_value_size time_type now_unix).bind fun h =>
    if buf.length ≥ h.consumed then
      if h.casv.isSome then .ok ⟨.Cas (mkEntry buf h) h.noreply, h.consumed⟩
      else .ok ⟨.Set (mkEntry buf h) h.noreply, h.consumed⟩
    else .error .Incomplete

/-- Embedding of `parse_add` (lines 372-387). -/
def parse_add (buf : List Nat) (max_value_size : Nat) (time_type : TimeType)
    (now_unix : Nat) : Except ParseError ParseOk :=
  match parse_set buf false max_value_size time_type now_unix with
  | .error e => .error e
  | .ok r =>
    match r.message with
    | .Set entry noreply => .ok ⟨.Add entry noreply, r.consumed⟩
    | _ => .error .Invalid  -- source: unreachable!()

/-- Embedding of `parse_replace` (lines 389-404). -/
def parse_replace (buf : List Nat) (max_value_size : Nat) (time_type : TimeType)
    (now_unix : Nat) : Except ParseError ParseOk :=
  match parse_set buf false max_value_size time_type now_unix with
  | .error e => .error e
  | .ok r =>
    match r.message with
    | .Set entry noreply => .ok ⟨.Replace entry noreply, r.consumed⟩
    | _ => .error .Invalid  -- source: unreachable!()

/-- Embedding of `parse_delete` (lines 406-459). -/
def parse_delete (buf : List Nat) : Except ParseError ParseOk :=
  match findSpaceFrom buf 0 with
  | none => .error .Invalid  -- source unwraps; established by parse_command
  | some cmd_end =>
    match findCrlfFrom buf 0 with
    | none => .error .Incomplete
    | some first_crlf =>
      let keyEndNoreply : Except ParseError (Nat × Bool) :=
        match (findSpaceFrom buf (cmd_end + 1)).map
            (fun p => (p - (cmd_end + 1)) + cmd_end + 1) with
        | some ns =>
          if ns < first_crlf then
            if slice buf (ns + 1) first_crlf = NOREPLY then .ok (ns, true)
            else .error .Invalid
          else .ok (first_crlf, false)
        | none => .ok (first_crlf, false)
      keyEndNoreply.bind fun kn =>
        let consumed := if kn.2 then kn.1 + NOREPLY.length + 2 else kn.1 + 2
        if kn.1 ≤ cmd_end + 1 then .error .Invalid
        else if kn.1 - (cmd_end + 1) > MAX_KEY_LEN then .error .Invalid
        else .ok ⟨.Delete (slice buf (cmd_end + 1) kn.1) kn.2, consumed⟩

structure MemcacheRequestParser where
  max_value_size : Nat
  time_type : TimeType
deriving DecidableEq, Repr

/-- Embedding of `Parse<MemcacheRequest>::parse` (lines 43-61); `now_unix`
is the `rustcommon_time::recent_unix()` reading used for TTL conversion. -/
def MemcacheRequestParser.parse (p : MemcacheRequestParser) (now_unix : Nat)
    (buf : List Nat) : Except ParseError ParseOk :=
  match parse_command buf with
  | .error e => .error e
  | .ok c =>
    match c with
    | .Get => parse_get buf
    | .Gets => parse_gets buf
    | .Set => parse_set buf false p.max_value_size p.time_type now_unix
    | .Add => parse_add buf p.max_value_size p.time_type now_unix
    | .Replace => parse_replace buf p.max_value_size p.time_type now_unix
    | .Cas => parse_set buf true p.max_value_size p.time_type now_unix
    | .Delete => parse_delete buf
    | .Quit => .error .Invalid

deriving instance DecidableEq for Except

/-- Inversion for a successful `Except.bind`. -/
lemma except_bind_ok {ε α β : Type} {a : Except ε α} {f : α → Except ε β} {b : β}
    (h : a.bind f = .ok b) : ∃ x, a = .ok x ∧ f x = .ok b := by
  cases a with
  | error e => exact absurd h (by simp [Except.bind])
  | ok x => exact ⟨x, rfl, h⟩

/-- Any successful header records the TTL computed from its `expiry` field
and the `consumed` count `line_end + CRLF + bytes + CRLF`. -/
lemma parse_set_header_fields (buf : List Nat) (casFlag : Bool) (mv : Nat)
    (tt : TimeType) (now : Nat) (h : SetHeader)
    (heq : parse_set_header buf casFlag mv tt now = .ok h) :
    h.ttl = computeTtl tt h.expiry now ∧ h.consumed = h.line_end + 2 + h.bytes + 2 := by
  unfold parse_set_header at heq
  obtain ⟨a, ha, heq⟩ := except_bind_ok heq
  obtain ⟨k, hk, heq⟩ := except_bind_ok heq
  obtain ⟨f, hf, heq⟩ := except_bind_ok heq
  obtain ⟨e, he, heq⟩ := except_bind_ok heq
  obtain ⟨be, hbe, heq⟩ := except_bind_ok heq
  obtain ⟨bytes, hby, heq⟩ := except_bind_ok heq
  obtain ⟨cn, hcn, heq⟩ := except_bind_ok heq
  obtain ⟨casv, hcv, heq⟩ := except_bind_ok heq
  simp only [Except.ok.injEq] at heq
  rw [← heq]
  exact ⟨rfl, rfl⟩

/-- For `cas = false`, the source sets `cas_end = None` without touching
`noreply`. -/
lemma setCasEnd_false (buf : List Nat) (line_end bytes_end pos : Nat) (nr : Bool) :
    setCasEnd buf false line_end bytes_end pos nr = .ok (none, nr) := by
  unfold setCasEnd
  rw [if_pos (show ¬(false = true) by simp)]

/-- For `cas = true`, every `cas_end` the source computes is a `Some`. -/
lemma setCasEnd_true_isSome (buf : List Nat) (line_end bytes_end pos : Nat)
    (nr : Bool) (cn : Option Nat × Bool)
    (h : setCasEnd buf true line_end bytes_end pos nr = .ok cn) :
    cn.1.isSome = true := by
  unfold setCasEnd at h
  rw [if_neg (show ¬¬(true = true) by simp)] at h
  repeat' split at h
  all_goals cases h
  all_goals rfl

/-- `setCasVal` with no `cas_end` yields no cas counter. -/
lemma setCasVal_none (buf : List Nat) (bytes_end : Nat) (casv : Option Nat)
    (h : setCasVal buf bytes_end none = .ok casv) : casv = none := by
  simp only [setCasVal, Except.ok.injEq] at h
  exact h.symm

/-- `setCasVal` with a `cas_end` succeeds only with a parsed counter. -/
lemma setCasVal_isSome (buf : List Nat) (bytes_end ce : Nat) (casv : Option Nat)
    (h : setCasVal buf bytes_end (some ce) = .ok casv) : casv.isSome = true := by
  simp only [setCasVal] at h
  repeat' split at h
  all_goals first
  | (cases h; rfl)
  | (exact absurd h (by simp))

/-- A header parsed with `cas = false` carries no cas counter. -/
lemma parse_set_header_casv_none (buf : List Nat) (mv : Nat) (tt : TimeType)
    (now : Nat) (h : SetHeader)
    (heq : parse_set_header buf false mv tt now = .ok h) :
    h.casv = none := by
  unfold parse_set_header at heq
  obtain ⟨a, ha, heq⟩ := except_bind_ok heq
  obtain ⟨k, hk, heq⟩ := except_bind_ok heq
  obtain ⟨f, hf, heq⟩ := except_bind_ok heq
  obtain ⟨e, he, heq⟩ := except_bind_ok heq
  obtain ⟨be, hbe, heq⟩ := except_bind_ok heq
  obtain ⟨bytes, hby, heq⟩ := except_bind_ok heq
  obtain ⟨cn, hcn, heq⟩ := except_bind_ok heq
  obtain ⟨casv, hcv, heq⟩ := except_bind_ok heq
  rw [setCasEnd_false] at hcn
  simp only [Except.ok.injEq] at hcn
  have hcn1 : cn.1 = none := by rw [← hcn]
  rw [hcn1] at hcv
  have hnone := setCasVal_none buf be.1 casv hcv
  simp only [Except.ok.injEq] at heq
  rw [← heq]
  exact hnone

/-- A header parsed with `cas = true` always carries a cas counter. -/
lemma parse_set_header_casv_some (buf : List Nat) (mv : Nat) (tt : TimeType)
    (now : Nat) (h : SetHeader)
    (heq : parse_set_header buf true mv tt now = .ok h) :
    h.casv.isSome = true := by
  unfold parse_set_header at heq
  obtain ⟨a, ha, heq⟩ := except_bind_ok heq
  obtain ⟨k, hk, heq⟩ := except_bind_ok heq
  obtain ⟨f, hf, heq⟩ := except_bind_ok heq
  obtain ⟨e, he, heq⟩ := except_bind_ok heq
  obtain ⟨be, hbe, heq⟩ := except_bind_ok heq
  obtain ⟨bytes, hby, heq⟩ := except_bind_ok heq
  obtain ⟨cn, hcn, heq⟩ := except_bind_ok heq
  obtain ⟨casv, hcv, heq⟩ := except_bind_ok heq
  have hsome := setCasEnd_true_isSome buf a.1 be.1 be.2.2 be.2.1 cn hcn
  obtain ⟨ce, hce⟩ := Option.isSome_iff_exists.mp hsome
  rw [hce] at hcv
  have hs := setCasVal_isSome buf be.1 ce casv hcv
  simp only [Except.ok.injEq] at heq
  rw [← heq]
  exact hs

/-- Whether the command dispatches into `parse_set` with `cas = true`. -/
def isCasCmd : MemcacheCommand → Bool
  | .Cas => true
  | _ => false

/-- C4: if the buffer holds a complete, valid set/add/replace/cas command
line (the header parse succeeds with byte count `h.bytes` and total frame
size `h.consumed = line_end + 2 + bytes + 2`), but the buffer is shorter
than that frame, `parse` returns `Incomplete` — not `Invalid`, not `Ok`. -/
theorem C4_short_value_incomplete (buf : List Nat) (p : MemcacheRequestParser)
    (now : Nat) (c : MemcacheCommand) (h : SetHeader)
    (hc : parse_command buf = .ok c)
    (hcmd : c = .Set ∨ c = .Add ∨ c = .Replace ∨ c = .Cas)
    (hh : parse_set_header buf (isCasCmd c) p.max_value_size p.time_type now = .ok h)
    (hlen : buf.length < h.consumed) :
    p.parse now buf = .error .Incomplete := by
  unfold MemcacheRequestParser.parse
  rw [hc]
  have hif : ¬ buf.length ≥ h.consumed := by omega
  rcases hcmd with rfl | rfl | rfl | rfl
  · simp only [isCasCmd] at hh
    unfold parse_set
    rw [hh]
    simp only [Except.bind, if_neg hif]
  · simp only [isCasCmd] at hh
    unfold parse_add parse_set
    rw [hh]
    simp only [Except.bind, if_neg hif]
  · simp only [isCasCmd] at hh
    unfold parse_replace parse_set
    rw [hh]
    simp only [Except.bind, if_neg hif]
  · simp only [isCasCmd] at hh
    unfold parse_set
    rw [hh]
    simp only [Except.bind, if_neg hif]

/-- C4 witness: `set a 0 0 5` followed by only two of the five declared
value bytes is `Incomplete`. -/
theorem C4_short_value_incomplete_witness :
    MemcacheRequestParser.parse ⟨1024, .Memcache⟩ 99 (bytesOf "set a 0 0 5\r\nab") =
      .error .Incomplete :=
  C4_short_value_incomplete (bytesOf "set a 0 0 5\r\nab") ⟨1024, .Memcache⟩ 99 .Set
    ⟨11, 3, 5, 0, 0, none, false, 5, none, 20⟩
    (by decide) (by simp) (by decide) (by decide)

/-- How `parse` wraps the assembled entry for each storing command. -/
def requestOf : MemcacheCommand → MemcacheEntry → Bool → MemcacheRequest
  | .Add, e, nr => .Add e nr
  | .Replace, e, nr => .Replace e nr
  | .Cas, e, nr => .Cas e nr
  | _, e, nr => .Set e nr

/-- C10: once the buffer length reaches `consumed = line_end + 2 + bytes + 2`,
`parse` returns `Ok` and consumes the two bytes after the value as the data
block terminator without any constraint on their contents (no hypothesis
below mentions the bytes at positions `consumed - 2` and `consumed - 1`). -/
theorem C10_terminator_not_verified (buf : List Nat) (p : MemcacheRequestParser)
    (now : Nat) (c : MemcacheCommand) (h : SetHeader)
    (hc : parse_command buf = .ok c)
    (hcmd : c = .Set ∨ c = .Add ∨ c = .Replace ∨ c = .Cas)
    (hh : parse_set_header buf (isCasCmd c) p.max_value_size p.time_type now = .ok h)
    (hlen : h.consumed ≤ buf.length) :
    p.parse now buf = .ok ⟨requestOf c (mkEntry buf h) h.noreply, h.consumed⟩ := by
  unfold MemcacheRequestParser.parse
  rw [hc]
  have hif : buf.length ≥ h.consumed := hlen
  rcases hcmd with rfl | rfl | rfl | rfl
  · simp only [isCasCmd] at hh
    have hcas := parse_set_header_casv_none buf p.max_value_size p.time_type now h hh
    unfold parse_set
    rw [hh]
    simp only [Except.bind, if_pos hif, hcas, Option.isSome_none, Bool.false_eq_true,
      if_false, requestOf]
  · simp only [isCasCmd] at hh
    have hcas := parse_set_header_casv_none buf p.max_value_size p.time_type now h hh
    unfold parse_add parse_set
    rw [hh]
    simp only [Except.bind, if_pos hif, hcas, Option.isSome_none, Bool.false_eq_true,
      if_false, requestOf]
  · simp only [isCasCmd] at hh
    have hcas := parse_set_header_casv_none buf p.max_value_size p.time_type now h hh
    unfold parse_replace parse_set
    rw [hh]
    simp only [Except.bind, if_pos hif, hcas, Option.isSome_none, Bool.false_eq_true,
      if_false, requestOf]
  · simp only [isCasCmd] at hh
    have hcas := parse_set_header_casv_some buf p.max_value_size p.time_type now h hh
    unfold parse_set
    rw [hh]
    simp only [Except.bind, if_pos hif, hcas, if_true, requestOf]

/-- C10 witness: in `set a 0 0 1` the one-byte value `x` is followed by `AB`
rather than CRLF, yet `parse` succeeds and reports 16 bytes consumed. -/
theorem C10_terminator_not_verified_witness :
    MemcacheRequestParser.parse ⟨1024, .Memcache⟩ 99 (bytesOf "set a 0 0 1\r\nxAB") =
      .ok ⟨.Set ⟨bytesOf "a", bytesOf "x", none, 0, none⟩ false, 16⟩ :=
  C10_terminator_not_verified (bytesOf "set a 0 0 1\r\nxAB") ⟨1024, .Memcache⟩ 99 .Set
    ⟨11, 3, 5, 0, 0, none, false, 1, none, 16⟩
    (by decide) (by simp) (by decide) (by decide)

/-- C3, amended: in `Unix` time mode every successfully parsed
set/add/replace/cas request line yields `TTL = Some(saturating_sub(expiry,
now))` — including `expiry = 0`, which gives `Some 0`, not `None` (the
`expiry == 0 → None` arm is unreachable when the time type is `Unix`). -/
theorem C3_unix_ttl_amended (buf : List Nat) (casFlag : Bool) (mv now : Nat)
    (h : SetHeader)
    (heq : parse_set_header buf casFlag mv .Unix now = .ok h) :
    h.ttl = some (h.expiry - now) := by
  have hf := (parse_set_header_fields buf casFlag mv .Unix now h heq).1
  rw [hf]
  simp [computeTtl]

/-- C3 witness: the amended theorem at the concrete request
`set a 0 5 1` with `now = 3`, giving `TTL = Some (5 - 3)`. -/
theorem C3_unix_ttl_amended_witness :
    (⟨11, 3, 5, 0, 5, some 2, false, 1, none, 16⟩ : SetHeader).ttl =
      some ((⟨11, 3, 5, 0, 5, some 2, false, 1, none, 16⟩ : SetHeader).expiry - 3) :=
  C3_unix_ttl_amended (bytesOf "set a 0 5 1\r\nx\r\n") false 1024 3
    ⟨11, 3, 5, 0, 5, some 2, false, 1, none, 16⟩ (by decide)

/-- C3 counterexample to the claim as frozen: in `Unix` mode a `set` with
expiry field 0 parses to `TTL = Some 0` (here with `now = 1700000000`),
not to the never-expiring `TTL = None` the claim states. -/
theorem C3_unix_zero_expiry_counterexample :
    MemcacheRequestParser.parse ⟨1024, .Unix⟩ 1700000000 (bytesOf "set a 0 0 1\r\nx\r\n") =
      .ok ⟨.Set ⟨bytesOf "a", bytesOf "x", some 0, 0, none⟩ false, 16⟩ ∧
    (some 0 : Option Nat) ≠ none := by
  exact ⟨by decide, by decide⟩

/-!
### C5 — batch size limit for get/gets

`mkGetBuf ks` is the canonical complete request line `get k1 k2 … kn\r\n`
(single-space separated, CRLF terminated); a valid key is nonempty, at most
250 bytes, and contains neither a space nor a CR byte.
-/

/-- A key as it can appear in a well-formed multi-get line. -/
def ValidKey (k : List Nat) : Prop :=
  k ≠ [] ∧ k.length ≤ MAX_KEY_LEN ∧ ∀ b ∈ k, b ≠ 32 ∧ b ≠ 13

instance (k : List Nat) : Decidable (ValidKey k) := by
  unfold ValidKey
  infer_instance

/-- Keys joined by single spaces. -/
def joinKeys : List (List Nat) → List Nat
  | [] => []
  | [k] => k
  | k :: rest => k ++ 32 :: joinKeys rest

/-- `get k1 … kn\r\n` as bytes. -/
def mkGetBuf (ks : List (List Nat)) : List Nat :=
  (bytesOf "get" ++ [32] ++ joinKeys ks) ++ [13, 10]

/-- `gets k1 … kn\r\n` as bytes. -/
def mkGetsBuf (ks : List (List Nat)) : List Nat :=
  (bytesOf "gets" ++ [32] ++ joinKeys ks) ++ [13, 10]

lemma goSpace_none (l : List Nat) (h : ∀ b ∈ l, b ≠ 32) : goSpace l = none := by
  induction l with
  | nil => rfl
  | cons b t ih =>
    rw [goSpace, if_neg (h b (by simp)), ih (fun x hx => h x (by simp [hx]))]
    rfl

lemma goSpace_append (k : List Nat) (r : List Nat) (h : ∀ b ∈ k, b ≠ 32) :
    goSpace (k ++ 32 :: r) = some k.length := by
  induction k with
  | nil => simp [goSpace]
  | cons b t ih =>
    rw [List.cons_append, goSpace, if_neg (h b (by simp)),
      ih (fun x hx => h x (by simp [hx]))]
    rfl

lemma goCrlf_append (P : List Nat) (r : List Nat) (h : ∀ b ∈ P, b ≠ 13) :
    goCrlf (P ++ 13 :: 10 :: r) = some P.length := by
  induction P with
  | nil => simp [goCrlf]
  | cons a t ih =>
    have ha : a ≠ 13 := h a (by simp)
    have iht := ih (fun x hx => h x (by simp [hx]))
    cases hsplit : t ++ 13 :: 10 :: r with
    | nil => exact absurd hsplit (by simp)
    | cons y t2 =>
      rw [List.cons_append, hsplit, goCrlf, if_neg (by simp [ha]), ← hsplit, iht]
      rfl

lemma findSpaceFrom_eq_none (buf P rest : List Nat) (i : Nat)
    (hbuf : buf = P ++ rest) (hi : i = P.length) (h : ∀ b ∈ rest, b ≠ 32) :
    findSpaceFrom buf i = none := by
  rw [findSpaceFrom, hbuf, hi, List.drop_left, goSpace_none rest h]
  rfl

lemma findSpaceFrom_eq_some (buf P k r : List Nat) (i : Nat)
    (hbuf : buf = P ++ (k ++ 32 :: r)) (hi : i = P.length) (h : ∀ b ∈ k, b ≠ 32) :
    findSpaceFrom buf i = some (i + k.length) := by
  rw [findSpaceFrom, hbuf, hi, List.drop_left, goSpace_append k r h]
  simp [Nat.add_comm]

lemma findCrlfFrom_zero (buf Q : List Nat) (hbuf : buf = Q ++ 13 :: 10 :: [])
    (h : ∀ b ∈ Q, b ≠ 13) : findCrlfFrom buf 0 = some Q.length := by
  rw [findCrlfFrom, hbuf, List.drop_zero, goCrlf_append Q [] h]
  rfl

lemma slice_at_append (P rest : List Nat) (n : Nat) :
    slice (P ++ rest) P.length (P.length + n) = rest.take n := by
  rw [slice, Nat.add_sub_cancel_left, List.drop_left]

/-- Bytes of a joined key list come from the keys or are the separator. -/
lemma mem_joinKeys (ks : List (List Nat)) (b : Nat) (hb : b ∈ joinKeys ks) :
    b = 32 ∨ ∃ k ∈ ks, b ∈ k := by
  induction ks with
  | nil => simp [joinKeys] at hb
  | cons k t ih =>
    cases t with
    | nil =>
      simp only [joinKeys] at hb
      exact Or.inr ⟨k, by simp, hb⟩
    | cons k2 t2 =>
      simp only [joinKeys, List.mem_append, List.mem_cons] at hb
      rcases hb with hk | h32 | hrest
      · exact Or.inr ⟨k, by simp, hk⟩
      · exact Or.inl h32
      · rcases ih hrest with h | ⟨k3, hk3, hbk3⟩
        · exact Or.inl h
        · exact Or.inr ⟨k3, by simp [hk3], hbk3⟩

lemma joinKeys_no13 (ks : List (List Nat)) (hv : ∀ k ∈ ks, ValidKey k) :
    ∀ b ∈ joinKeys ks, b ≠ 13 := by
  intro b hb
  rcases mem_joinKeys ks b hb with h32 | ⟨k, hk, hbk⟩
  · omega
  · exact ((hv k hk).2.2 b hbk).2

lemma joinKeys_length_ge (ks : List (List Nat)) :
    ks.length ≤ (joinKeys ks).length + 1 := by
  induction ks with
  | nil => simp
  | cons k t ih =>
    cases t with
    | nil => simp [joinKeys]
    | cons k2 t2 =>
      simp only [joinKeys, List.length_cons, List.length_append] at ih ⊢
      omega

/-- The key-collection loop on a well-formed tail: with the iterator and
`previous` aligned at the start of the joined keys, it returns all the keys
unless the running batch-size check fires. -/
lemma getKeysLoop_spec (ks : List (List Nat)) :
    ∀ (buf P : List Nat) (acc : List (List Nat)) (fuel i line_end : Nat),
      buf = P ++ (joinKeys ks ++ [13, 10]) →
      i = P.length →
      line_end = P.length + (joinKeys ks).length →
      (∀ k ∈ ks, ValidKey k) →
      acc.length ≤ 1023 →
      ks.length + 1 ≤ fuel →
      getKeysLoop buf line_end fuel i i acc =
        if acc.length + ks.length ≤ 1024 then .ok (acc ++ ks) else .error .Invalid := by
  induction ks with
  | nil =>
    intro buf P acc fuel i line_end hbuf hi hle _ hacc hfuel
    obtain ⟨f, rfl⟩ : ∃ f, fuel = f + 1 := ⟨fuel - 1, by omega⟩
    simp only [joinKeys, List.length_nil, Nat.add_zero, List.nil_append] at hbuf hle
    subst hbuf
    subst hi
    subst hle
    have hfind : findSpaceFrom (P ++ [13, 10]) P.length = none :=
      findSpaceFrom_eq_none _ P [13, 10] _ rfl rfl (by decide)
    simp only [getKeysLoop, hfind]
    rw [if_neg (by omega), if_pos (by simp only [List.length_nil]; omega)]
    simp
  | cons k t ih =>
    intro buf P acc fuel i line_end hbuf hi hle hv hacc hfuel
    obtain ⟨f, rfl⟩ : ∃ f, fuel = f + 1 := ⟨fuel - 1, by omega⟩
    have hkvalid : ValidKey k := hv k (by simp)
    obtain ⟨hkne, hklen, hkbytes⟩ := hkvalid
    have hk32 : ∀ b ∈ k, b ≠ 32 := fun b hb => (hkbytes b hb).1
    have hkpos : 0 < k.length := List.length_pos.mpr hkne
    have hklen250 : k.length ≤ 250 := by
      unfold MAX_KEY_LEN at hklen
      omega
    cases t with
    | nil =>
      -- last key: no further space, the final push happens at the CRLF
      simp only [joinKeys] at hbuf hle
      subst hbuf
      subst hi
      subst hle
      have hfind : findSpaceFrom (P ++ (k ++ [13, 10])) P.length = none := by
        refine findSpaceFrom_eq_none _ P (k ++ [13, 10]) _ rfl rfl ?_
        intro b hb
        rcases List.mem_append.mp hb with hbk | hbtail
        · exact hk32 b hbk
        · have hb2 : b = 13 ∨ b = 10 := by simpa using hbtail
          rcases hb2 with rfl | rfl <;> decide
      have hbufshape : P ++ (k ++ [13, 10]) = P ++ k ++ [13, 10] := by
        simp [List.append_assoc]
      rw [hbufshape] at hfind ⊢
      simp only [getKeysLoop, hfind]
      rw [if_pos (by omega), if_neg (by omega)]
      have hslice : slice (P ++ k ++ [13, 10]) P.length (P.length + k.length) = k := by
        rw [List.append_assoc, slice_at_append, List.take_left]
      rw [hslice, if_pos (by simp only [List.length_cons, List.length_nil]; omega)]
    | cons k2 t2 =>
      -- at least one more key follows: the separator space is found
      have hjoin : joinKeys (k :: k2 :: t2) = k ++ 32 :: joinKeys (k2 :: t2) := rfl
      rw [hjoin] at hbuf hle
      subst hbuf
      subst hi
      subst hle
      set J2 := joinKeys (k2 :: t2) with hJ2
      have hfind : findSpaceFrom (P ++ ((k ++ 32 :: J2) ++ [13, 10])) P.length =
          some (P.length + k.length) := by
        refine findSpaceFrom_eq_some _ P k (J2 ++ [13, 10]) _ ?_ rfl hk32
        simp [List.append_assoc]
      simp only [getKeysLoop, hfind, Nat.add_sub_cancel_left]
      have hlinelen : P.length + (k ++ 32 :: J2).length =
          P.length + k.length + 1 + J2.length := by
        simp only [List.length_append, List.length_cons]
        omega
      rw [if_pos (by rw [hlinelen]; omega), if_pos (by omega),
        if_neg (by unfold MAX_KEY_LEN; omega)]
      have hslice : slice (P ++ ((k ++ 32 :: J2) ++ [13, 10])) P.length
          (P.length + k.length) = k := by
        rw [slice_at_append]
        rw [show (k ++ 32 :: J2) ++ [13, 10] = k ++ (32 :: J2 ++ [13, 10]) from by
          simp [List.append_assoc]]
        exact List.take_left k _
      rw [hslice]
      by_cases hfull : (acc ++ [k]).length ≥ MAX_BATCH_SIZE
      · rw [if_pos hfull]
        rw [if_neg (by
          simp only [List.length_append, List.length_singleton, List.length_cons,
            List.length_nil] at hfull ⊢
          unfold MAX_BATCH_SIZE at hfull
          omega)]
      · rw [if_neg hfull]
        have hih := ih (P ++ ((k ++ 32 :: J2) ++ [13, 10])) (P ++ (k ++ [32])) (acc ++ [k]) f
          (P ++ (k ++ [32])).length (P.length + (k ++ 32 :: J2).length)
          (by simp [List.append_assoc, hJ2]) rfl
          (by simp only [List.length_append, List.length_singleton, List.length_cons,
            List.length_nil]; omega)
          (fun x hx => hv x (by simp [hx]))
          (by
            simp only [List.length_append, List.length_singleton, List.length_cons,
              List.length_nil] at hfull ⊢
            unfold MAX_BATCH_SIZE at hfull
            omega)
          (by simp only [List.length_cons] at hfuel ⊢; omega)
        have hstart : (P ++ (k ++ [32])).length = P.length + k.length + 1 := by
          simp only [List.length_append, List.length_singleton]
          omega
        rw [hstart] at hih
        rw [hih]
        by_cases hfits : acc.length + (k :: k2 :: t2).length ≤ 1024
        · rw [if_pos (by
            simp only [List.length_append, List.length_singleton, List.length_cons,
              List.length_nil] at hfits ⊢
            omega), if_pos hfits]
          simp [List.append_assoc]
        · rw [if_neg (by
            simp only [List.length_append, List.length_singleton, List.length_cons,
              List.length_nil] at hfits ⊢
            omega), if_neg hfits]

/-- No CR byte anywhere before the final CRLF of a well-formed get line. -/
lemma prefix_no13 (cmdb : List Nat) (ks : List (List Nat))
    (h13 : ∀ b ∈ cmdb, b ≠ 13) (hv : ∀ k ∈ ks, ValidKey k) :
    ∀ b ∈ cmdb ++ [32] ++ joinKeys ks, b ≠ 13 := by
  intro b hb
  simp only [List.append_assoc, List.mem_append, List.mem_singleton] at hb
  rcases hb with hc | h32 | hj
  · exact h13 b hc
  · omega
  · exact joinKeys_no13 ks hv b hj

lemma parse_get_on (cmdb : List Nat) (ks : List (List Nat))
    (h32 : ∀ b ∈ cmdb, b ≠ 32) (h13 : ∀ b ∈ cmdb, b ≠ 13)
    (hv : ∀ k ∈ ks, ValidKey k) (hne : ks ≠ []) :
    parse_get ((cmdb ++ [32] ++ joinKeys ks) ++ [13, 10]) =
      if ks.length ≤ 1024 then
        .ok ⟨.Get ks, ((cmdb ++ [32] ++ joinKeys ks) ++ [13, 10]).length⟩
      else .error .Invalid := by
  have hcrlf : findCrlfFrom ((cmdb ++ [32] ++ joinKeys ks) ++ [13, 10]) 0 =
      some (cmdb ++ [32] ++ joinKeys ks).length :=
    findCrlfFrom_zero _ _ rfl (prefix_no13 cmdb ks h13 hv)
  have hspace : findSpaceFrom ((cmdb ++ [32] ++ joinKeys ks) ++ [13, 10]) 0 =
      some cmdb.length := by
    have h := findSpaceFrom_eq_some ((cmdb ++ [32] ++ joinKeys ks) ++ [13, 10]) [] cmdb
      (joinKeys ks ++ [13, 10]) 0 (by simp [List.append_assoc]) rfl h32
    simpa using h
  have hloop := getKeysLoop_spec ks ((cmdb ++ [32] ++ joinKeys ks) ++ [13, 10])
    (cmdb ++ [32]) [] (((cmdb ++ [32] ++ joinKeys ks) ++ [13, 10]).length + 1)
    (cmdb.length + 1) (cmdb ++ [32] ++ joinKeys ks).length
    (by simp [List.append_assoc])
    (by simp)
    (by simp only [List.length_append, List.length_singleton])
    hv
    (by simp)
    (by
      have hj := joinKeys_length_ge ks
      simp only [List.length_append, List.length_singleton, List.length_cons,
        List.length_nil]
      omega)
  simp only [List.length_nil, Nat.zero_add, List.nil_append] at hloop
  by_cases hlen : ks.length ≤ 1024
  · rw [if_pos hlen]
    simp only [parse_get, hcrlf, hspace, hloop, if_pos hlen]
    rw [if_neg (by simpa [List.isEmpty_iff] using hne)]
    simp only [List.length_append, List.length_cons, List.length_nil,
      List.length_singleton, ParseOk.mk.injEq]
  · rw [if_neg hlen]
    simp only [parse_get, hcrlf, hspace, hloop, if_neg hlen]

lemma parse_command_on (cmdb : List Nat) (ks : List (List Nat))
    (h32 : ∀ b ∈ cmdb, b ≠ 32) (h13 : ∀ b ∈ cmdb, b ≠ 13)
    (hv : ∀ k ∈ ks, ValidKey k) (_hne : ks ≠ []) :
    parse_command ((cmdb ++ [32] ++ joinKeys ks) ++ [13, 10]) =
      MemcacheCommand.tryFrom cmdb := by
  have hcrlf : findCrlfFrom ((cmdb ++ [32] ++ joinKeys ks) ++ [13, 10]) 0 =
      some (cmdb ++ [32] ++ joinKeys ks).length :=
    findCrlfFrom_zero _ _ rfl (prefix_no13 cmdb ks h13 hv)
  have hspace : findSpaceFrom ((cmdb ++ [32] ++ joinKeys ks) ++ [13, 10]) 0 =
      some cmdb.length := by
    have h := findSpaceFrom_eq_some ((cmdb ++ [32] ++ joinKeys ks) ++ [13, 10]) [] cmdb
      (joinKeys ks ++ [13, 10]) 0 (by simp [List.append_assoc]) rfl h32
    simpa using h
  have hmin : min (cmdb ++ [32] ++ joinKeys ks).length cmdb.length = cmdb.length := by
    apply Nat.min_eq_right
    simp only [List.length_append, List.length_singleton]
    omega
  have hslice : slice ((cmdb ++ [32] ++ joinKeys ks) ++ [13, 10]) 0 cmdb.length = cmdb := by
    rw [slice, List.drop_zero, Nat.sub_zero]
    rw [show (cmdb ++ [32] ++ joinKeys ks) ++ [13, 10] =
      cmdb ++ ([32] ++ joinKeys ks ++ [13, 10]) from by simp [List.append_assoc]]
    exact List.take_left cmdb _
  simp only [parse_command, hcrlf, hspace, hmin, hslice]

/-- C5: a complete get/gets request line made of well-formed keys parses to
exactly those keys when there are at most 1024 of them (in particular at
exactly 1024), consuming the whole line, and is rejected as `Invalid` as
soon as there are 1025 or more. -/
theorem C5_get_batch_limit (ks : List (List Nat)) (hv : ∀ k ∈ ks, ValidKey k)
    (mv : Nat) (tt : TimeType) (now : Nat) :
    (ks.length = 1024 →
      MemcacheRequestParser.parse ⟨mv, tt⟩ now (mkGetBuf ks) =
        .ok ⟨.Get ks, (mkGetBuf ks).length⟩ ∧
      MemcacheRequestParser.parse ⟨mv, tt⟩ now (mkGetsBuf ks) =
        .ok ⟨.Gets ks, (mkGetsBuf ks).length⟩) ∧
    (1025 ≤ ks.length →
      MemcacheRequestParser.parse ⟨mv, tt⟩ now (mkGetBuf ks) = .error .Invalid ∧
      MemcacheRequestParser.parse ⟨mv, tt⟩ now (mkGetsBuf ks) = .error .Invalid) := by
  have hget32 : ∀ b ∈ bytesOf "get", b ≠ 32 := by decide
  have hget13 : ∀ b ∈ bytesOf "get", b ≠ 13 := by decide
  have hgets32 : ∀ b ∈ bytesOf "gets", b ≠ 32 := by decide
  have hgets13 : ∀ b ∈ bytesOf "gets", b ≠ 13 := by decide
  constructor
  · intro h1024
    have hne : ks ≠ [] := by
      intro h
      rw [h] at h1024
      simp at h1024
    have hpcget : parse_command (mkGetBuf ks) = .ok .Get := by
      rw [mkGetBuf, parse_command_on (bytesOf "get") ks hget32 hget13 hv hne]
      decide
    have hpcgets : parse_command (mkGetsBuf ks) = .ok .Gets := by
      rw [mkGetsBuf, parse_command_on (bytesOf "gets") ks hgets32 hgets13 hv hne]
      decide
    have hpg : parse_get (mkGetBuf ks) = .ok ⟨.Get ks, (mkGetBuf ks).length⟩ := by
      rw [mkGetBuf, parse_get_on (bytesOf "get") ks hget32 hget13 hv hne,
        if_pos (by omega)]
    have hpgs : parse_get (mkGetsBuf ks) = .ok ⟨.Get ks, (mkGetsBuf ks).length⟩ := by
      rw [mkGetsBuf, parse_get_on (bytesOf "gets") ks hgets32 hgets13 hv hne,
        if_pos (by omega)]
    constructor
    · simp only [MemcacheRequestParser.parse, hpcget, hpg]
    · simp only [MemcacheRequestParser.parse, hpcgets, parse_gets, hpgs]
  · intro h1025
    have hne : ks ≠ [] := by
      intro h
      rw [h] at h1025
      simp at h1025
    have hpcget : parse_command (mkGetBuf ks) = .ok .Get := by
      rw [mkGetBuf, parse_command_on (bytesOf "get") ks hget32 hget13 hv hne]
      decide
    have hpcgets : parse_command (mkGetsBuf ks) = .ok .Gets := by
      rw [mkGetsBuf, parse_command_on (bytesOf "gets") ks hgets32 hgets13 hv hne]
      decide
    have hpg : parse_get (mkGetBuf ks) = .error .Invalid := by
      rw [mkGetBuf, parse_get_on (bytesOf "get") ks hget32 hget13 hv hne,
        if_neg (by omega)]
    have hpgs : parse_get (mkGetsBuf ks) = .error .Invalid := by
      rw [mkGetsBuf, parse_get_on (bytesOf "gets") ks hgets32 hgets13 hv hne,
        if_neg (by omega)]
    constructor
    · simp only [MemcacheRequestParser.parse, hpcget, hpg]
    · simp only [MemcacheRequestParser.parse, hpcgets, parse_gets, hpgs]

/-- C5 witness: 1024 single-byte keys are accepted, 1025 are rejected. -/
theorem C5_get_batch_limit_witness :
    MemcacheRequestParser.parse ⟨1024, .Memcache⟩ 0
        (mkGetBuf (List.replicate 1024 [107])) =
      .ok ⟨.Get (List.replicate 1024 [107]), (mkGetBuf (List.replicate 1024 [107])).length⟩ ∧
    MemcacheRequestParser.parse ⟨1024, .Memcache⟩ 0
        (mkGetBuf (List.replicate 1025 [107])) = .error .Invalid := by
  constructor
  · exact ((C5_get_batch_limit (List.replicate 1024 [107])
      (by
        intro k hk
        rw [List.eq_of_mem_replicate hk]
        decide) 1024 .Memcache 0).1 (by rw [List.length_replicate])).1
  · exact ((C5_get_batch_limit (List.replicate 1025 [107])
      (by
        intro k hk
        rw [List.eq_of_mem_replicate hk]
        decide) 1024 .Memcache 0).2 (by rw [List.length_replicate])).1

/-!
## queues/src/lib.rs (C6, C7)

The SPSC rings (`rtrb::RingBuffer::new(1024)`) are modelled as bounded lists,
oldest item first: `Producer::push` appends when a slot is free and fails
with the item when the ring is full; `Consumer::pop` removes the head;
`Consumer::slots()` is the current length.  The `Arc<mio::Waker>` is
modelled by a delivery counter, and its `wake()` I/O as always succeeding.
The random receiver offset drawn from the ChaCha rng in `try_recv` is an
arbitrary `start` parameter, so the theorems hold for every draw.
-/

def RING_CAPACITY : Nat := 1024

structure TrackedItem (T : Type) where
  sender : Nat
  inner : T
deriving DecidableEq

structure WakingSender (T : Type) where
  inner : List T
  waker_wakes : Nat
  needs_wake : Bool
deriving DecidableEq

/-- Embedding of `WakingSender::try_send` (lib.rs lines 56-64): `none` is
`Ok(())`, `some item` is `Err(Full(item))`. -/
def WakingSender.try_send {T : Type} (s : WakingSender T) (item : T) :
    WakingSender T × Option T :=
  if s.inner.length < RING_CAPACITY then
    ({ s with inner := s.inner ++ [item], needs_wake := true }, none)
  else (s, some item)

/-- Embedding of `WakingSender::wake` (lines 66-76); the Bool is the
`Ok`-ness of the I/O result, always true in the model. -/
def WakingSender.wake {T : Type} (s : WakingSender T) : WakingSender T × Bool :=
  if s.needs_wake then
    ({ s with waker_wakes := s.waker_wakes + 1, needs_wake := false }, true)
  else (s, true)

/-- Embedding of `Queues::try_send_all` (lines 250-264): push a clone of the
item, tagged with this endpoint's id, into every peer ring in order; the
result is `Err(item)` as soon as any ring was full, without unwinding the
other pushes. -/
def try_send_all {T : Type} (senders : List (WakingSender (TrackedItem T)))
    (qid : Nat) (x : T) : List (WakingSender (TrackedItem T)) × Option T :=
  match senders with
  | [] => ([], none)
  | s :: rest =>
    let r := s.try_send ⟨qid, x⟩
    let rres := try_send_all rest qid x
    (r.1 :: rres.1,
      match r.2 with
      | some _ => some x
      | none => rres.2)

/-- The offset loop of `Queues::try_recv` (lines 158-176). -/
def try_recv_loop {U : Type} (receivers : List (List (TrackedItem U)))
    (pending : List Nat) (total start : Nat) (offsets : List Nat) :
    List (List (TrackedItem U)) × Option (TrackedItem U) :=
  match offsets with
  | [] => (receivers, none)
  | off :: rest =>
    if (pending.getD ((start + off) % pending.length) 0) > 0 then
      match receivers.getD ((start + off) % pending.length) [] with
      | item :: remaining =>
        (receivers.set ((start + off) % pending.length) remaining, some item)
      | [] =>
        -- `pop()` returned Err (lines 165-172); with sequential rings a
        -- positive slot count means a nonempty ring, so this arm never fires
        if total - 1 = 0 then (receivers, none)
        else try_recv_loop receivers
          (pending.set ((start + off) % pending.length)
            (pending.getD ((start + off) % pending.length) 0 - 1))
          (total - 1) start rest
    else try_recv_loop receivers pending total start rest

/-- Embedding of `Queues::try_recv` (lines 148-177); `start` is the random
offset drawn from the rng. -/
def try_recv {U : Type} (receivers : List (List (TrackedItem U))) (start : Nat) :
    List (List (TrackedItem U)) × Option (TrackedItem U) :=
  if (receivers.map List.length).sum = 0 then (receivers, none)
  else try_recv_loop receivers (receivers.map List.length)
    (receivers.map List.length).sum start (List.range (receivers.map List.length).length)

/-- What one pass of `try_send_all` does to every ring. -/
lemma try_send_all_spec {T : Type} (qid : Nat) (x : T) :
    ∀ senders : List (WakingSender (TrackedItem T)),
      try_send_all senders qid x =
        (senders.map fun s =>
          if s.inner.length < RING_CAPACITY then
            { s with inner := s.inner ++ [⟨qid, x⟩], needs_wake := true }
          else s,
         if senders.all (fun s => s.inner.length < RING_CAPACITY) then none
         else some x) := by
  intro senders
  induction senders with
  | nil => simp [try_send_all]
  | cons s rest ih =>
    simp only [try_send_all, ih, WakingSender.try_send, List.map_cons, List.all_cons]
    by_cases hs : s.inner.length < RING_CAPACITY
    · simp [hs]
    · simp [hs]

/-- C6: `try_send_all` appends the tracked item once to every ring with a
free slot, returning `Ok` exactly when all rings had room and `Err` with the
item otherwise — without unwinding the deliveries already made; and for a
peer, `try_recv` (at any random offset) on the ring holding just that item
yields it, after which the ring is empty and a further `try_recv` yields
nothing — exactly once per peer. -/
theorem C6_try_send_all_broadcast {T : Type} (senders : List (WakingSender (TrackedItem T)))
    (qid : Nat) (x : T) :
    try_send_all senders qid x =
      (senders.map fun s =>
        if s.inner.length < RING_CAPACITY then
          { s with inner := s.inner ++ [⟨qid, x⟩], needs_wake := true }
        else s,
       if senders.all (fun s => s.inner.length < RING_CAPACITY) then none
       else some x) ∧
    (∀ start : Nat,
      try_recv [[(⟨qid, x⟩ : TrackedItem T)]] start =
        ([([] : List (TrackedItem T))], some ⟨qid, x⟩)) ∧
    (∀ start : Nat,
      try_recv [([] : List (TrackedItem T))] start =
        ([([] : List (TrackedItem T))], none)) := by
  refine ⟨try_send_all_spec qid x senders, ?_, ?_⟩
  · intro start
    simp [try_recv, try_recv_loop, List.range_succ, Nat.mod_one]
  · intro start
    simp [try_recv]

/-- A caller's batch of `try_send`s, as in the deferred-wake pattern: fold
`try_send` over the items; the Bool records that every push succeeded. -/
def sendBatch {T : Type} (s : WakingSender T) (xs : List T) : WakingSender T × Bool :=
  match xs with
  | [] => (s, true)
  | x :: rest =>
    let r := s.try_send x
    let rres := sendBatch r.1 rest
    (rres.1, r.2.isNone && rres.2)

lemma sendBatch_spec {T : Type} (xs : List T) :
    ∀ s : WakingSender T, s.inner.length + xs.length ≤ RING_CAPACITY →
      sendBatch s xs =
        ({ inner := s.inner ++ xs, waker_wakes := s.waker_wakes,
           needs_wake := if xs.isEmpty then s.needs_wake else true }, true) := by
  induction xs with
  | nil =>
    intro s _
    simp [sendBatch]
  | cons x rest ih =>
    intro s hroom
    simp only [List.length_cons] at hroom
    have hs : s.inner.length < RING_CAPACITY := by omega
    have hstep := ih { s with inner := s.inner ++ [x], needs_wake := true }
      (by simp only [List.length_append, List.length_singleton]; omega)
    simp only [sendBatch, WakingSender.try_send, if_pos hs, hstep]
    simp [List.append_assoc]

/-- C7: after a nonempty batch of successful sends the `needs_wake` flag is
set; the first `wake()` then delivers exactly one waker notification and
clears the flag, and a second `wake()` with no intervening send delivers
none (the counter stays put) while still returning Ok. -/
theorem C7_deferred_wake (T : Type) (s : WakingSender T) (xs : List T)
    (hroom : s.inner.length + xs.length ≤ RING_CAPACITY) (hne : xs ≠ []) :
    (sendBatch s xs).2 = true ∧
    (sendBatch s xs).1.needs_wake = true ∧
    ((sendBatch s xs).1.wake).1.waker_wakes = s.waker_wakes + 1 ∧
    ((sendBatch s xs).1.wake).1.needs_wake = false ∧
    ((sendBatch s xs).1.wake).2 = true ∧
    (((sendBatch s xs).1.wake).1.wake).1.waker_wakes = s.waker_wakes + 1 ∧
    (((sendBatch s xs).1.wake).1.wake).2 = true := by
  rw [sendBatch_spec xs s hroom]
  have hempty : xs.isEmpty = false := by
    cases xs with
    | nil => exact absurd rfl hne
    | cons a t => rfl
  simp [WakingSender.wake, hempty]

/-- C7 witness: a batch of two sends into an empty sender. -/
theorem C7_deferred_wake_witness :
    (sendBatch (⟨[], 5, false⟩ : WakingSender Nat) [1, 2]).2 = true ∧
    (sendBatch (⟨[], 5, false⟩ : WakingSender Nat) [1, 2]).1.needs_wake = true ∧
    ((sendBatch (⟨[], 5, false⟩ : WakingSender Nat) [1, 2]).1.wake).1.waker_wakes = 5 + 1 ∧
    ((sendBatch (⟨[], 5, false⟩ : WakingSender Nat) [1, 2]).1.wake).1.needs_wake = false ∧
    ((sendBatch (⟨[], 5, false⟩ : WakingSender Nat) [1, 2]).1.wake).2 = true ∧
    (((sendBatch (⟨[], 5, false⟩ : WakingSender Nat) [1, 2]).1.wake).1.wake).1.waker_wakes
      = 5 + 1 ∧
    (((sendBatch (⟨[], 5, false⟩ : WakingSender Nat) [1, 2]).1.wake).1.wake).2 = true :=
  C7_deferred_wake Nat ⟨[], 5, false⟩ [1, 2] (by decide) (by decide)

/-!
## protocol/src/memcache/wire/mod.rs and entrystore/src/noop/memcache.rs (C9)

`Execute::execute` dispatches a parsed request against any `MemcacheStorage`
implementation.  The trait is modelled as a record of operation results (the
`Noop` store is stateless, and only the returned variants matter for the
panic claim); `unreachable!()` is modelled as `Except.error Panic.unreachable`.
-/

inductive MemcacheStorageError where
  | NotFound
  | NotStored
  | Exists
deriving DecidableEq

inductive MemcacheResponse where
  | Values (entries : List MemcacheEntry) (cas : Bool)
  | Stored
  | NotStored
  | Deleted
  | NotFound
  | Exists
deriving DecidableEq

/-- A `MemcacheStorage` backend, as the results its six operations produce. -/
structure StorageImpl where
  get : List (List Nat) → List MemcacheEntry
  set : MemcacheEntry → Except MemcacheStorageError Unit
  add : MemcacheEntry → Except MemcacheStorageError Unit
  replace : MemcacheEntry → Except MemcacheStorageError Unit
  delete : List Nat → Except MemcacheStorageError Unit
  cas : MemcacheEntry → Except MemcacheStorageError Unit

inductive Panic where
  | unreachable
deriving DecidableEq

/-- Embedding of `Execute::execute` (wire/mod.rs lines 20-131).  `Ok none`
is the `noreply` early return, `Ok (some r)` a response, and
`error unreachable` the `unreachable!()` arms for storage error variants
the match does not handle. -/
def execute (st : StorageImpl) (request : MemcacheRequest) :
    Except Panic (Option MemcacheResponse) :=
  match request with
  | .Get keys => .ok (some (.Values (st.get keys) false))
  | .Gets keys => .ok (some (.Values (st.get keys) true))
  | .Set entry noreply =>
    match st.set entry with
    | .ok _ => if noreply then .ok none else .ok (some .Stored)
    | .error .NotStored => if noreply then .ok none else .ok (some .NotStored)
    | .error _ => .error .unreachable
  | .Add entry noreply =>
    match st.add entry with
    | .ok _ => if noreply then .ok none else .ok (some .Stored)
    | .error .NotStored => if noreply then .ok none else .ok (some .NotStored)
    | .error _ => .error .unreachable
  | .Replace entry noreply =>
    match st.replace entry with
    | .ok _ => if noreply then .ok none else .ok (some .Stored)
    | .error .NotStored => if noreply then .ok none else .ok (some .NotStored)
    | .error _ => .error .unreachable
  | .Delete key noreply =>
    match st.delete key with
    | .ok _ => if noreply then .ok none else .ok (some .Deleted)
    | .error .NotFound => if noreply then .ok none else .ok (some .NotFound)
    | .error _ => .error .unreachable
  | .Cas entry noreply =>
    match st.cas entry with
    | .ok _ => if noreply then .ok none else .ok (some .Stored)
    | .error .NotFound => if noreply then .ok none else .ok (some .NotFound)
    | .error .Exists => if noreply then .ok none else .ok (some .Exists)
    | .error .NotStored => if noreply then .ok none else .ok (some .NotStored)

/-- Embedding of the `Noop` store's `MemcacheStorage` impl
(entrystore/src/noop/memcache.rs lines 9-33): notably `replace` returns
`Err(NotFound)`. -/
def Noop : StorageImpl :=
  { get := fun _ => []
    set := fun _ => .error .NotStored
    add := fun _ => .error .NotStored
    replace := fun _ => .error .NotFound
    delete := fun _ => .error .NotFound
    cas := fun _ => .error .NotStored }

/-- C9 failing input: executing a `Replace` request against the `Noop`
store hits the `unreachable!()` arm — `Noop::replace` returns `NotFound`,
which the Replace arm of `execute` does not handle — so `execute` panics
instead of returning a response, contradicting the claim (the code's own
`unreachable!()` assertion and the spec, which says replace fails with
`NotStored` and storage errors are surfaced as response lines, mark this
as a code bug). -/
theorem C9_replace_noop_panics :
    execute Noop (.Replace ⟨bytesOf "k", bytesOf "v", none, 0, none⟩ false) =
      .error Panic.unreachable := by
  decide

/-!
## server/pingserver-rs/src/admin.rs — the stats response (C8)

The `stats\r\n` branch of `Admin::handle_data` (lines 175-204) renders one
`STAT <name> <value>` line per snapshot entry whose output is
`Output::Reading`, sorts the lines with `Vec::sort` (a stable sort; Rust
orders `String`s by byte-wise lexicographic comparison), joins them with
CRLF and appends one final CRLF.  Strings are modelled as byte lists
(`session.write(content.as_bytes())` sends bytes), `value` being the
already-rendered `Display` output of the counter; the stable sort is
modelled by insertion sort, which computes the same list for a total order.
-/

inductive Output where
  | Reading
  | Other
deriving DecidableEq

structure StatEntry where
  name : List Nat
  output : Output
  value : List Nat
deriving DecidableEq

/-- Byte-wise lexicographic order, as Rust's `Ord` on `String`/`[u8]`. -/
def bytesLe : List Nat → List Nat → Bool
  | [], _ => true
  | _ :: _, [] => false
  | a :: as, b :: bs => if a < b then true else if b < a then false else bytesLe as bs

/-- One step of the stable sort. -/
def insertSorted (x : List Nat) : List (List Nat) → List (List Nat)
  | [] => [x]
  | y :: ys => if bytesLe x y then x :: y :: ys else y :: insertSorted x ys

/-- `Vec::sort` on the collected lines. -/
def sortLines : List (List Nat) → List (List Nat)
  | [] => []
  | x :: xs => insertSorted x (sortLines xs)

/-- `data.join("\r\n")`. -/
def joinCrlf : List (List Nat) → List Nat
  | [] => []
  | [l] => l
  | l :: rest => l ++ [13, 10] ++ joinCrlf rest

/-- The `STAT <name> <value>` line for a snapshot entry. -/
def statLine (e : StatEntry) : List Nat :=
  bytesOf "STAT " ++ e.name ++ [32] ++ e.value

/-- Embedding of the stats branch of `Admin::handle_data`: the bytes written
back to the session for a `stats\r\n` request. -/
def statsResponse (snapshot : List StatEntry) : List Nat :=
  joinCrlf (sortLines (snapshot.foldl (fun acc e =>
    match e.output with
    | Output.Reading => acc ++ [statLine e]
    | _ => acc) [])) ++ [13, 10]

lemma bytesLe_total : ∀ x y : List Nat, bytesLe x y = true ∨ bytesLe y x = true := by
  intro x
  induction x with
  | nil =>
    intro y
    left
    cases y <;> rfl
  | cons a as ih =>
    intro y
    cases y with
    | nil => right; rfl
    | cons b bs =>
      by_cases hab : a < b
      · left
        simp [bytesLe, hab]
      · by_cases hba : b < a
        · right
          simp [bytesLe, hba]
        · have heq : a = b := by omega
          subst heq
          rcases ih bs with h | h
          · left
            simp [bytesLe, h]
          · right
            simp [bytesLe, h]

lemma chain'_insertSorted (x : List Nat) :
    ∀ l, List.Chain' (fun a b => bytesLe a b = true) l →
      List.Chain' (fun a b => bytesLe a b = true) (insertSorted x l) := by
  intro l
  induction l with
  | nil =>
    intro _
    simp [insertSorted]
  | cons y ys ih =>
    intro h
    rw [insertSorted]
    by_cases hxy : bytesLe x y = true
    · rw [if_pos hxy]
      exact List.Chain'.cons hxy h
    · rw [if_neg hxy]
      have hyx : bytesLe y x = true := by
        rcases bytesLe_total x y with h1 | h1
        · exact absurd h1 hxy
        · exact h1
      cases ys with
      | nil =>
        simp [insertSorted, List.chain'_pair, hyx]
      | cons z zs =>
        by_cases hxz : bytesLe x z = true
        · rw [insertSorted, if_pos hxz]
          exact List.Chain'.cons hyx (List.Chain'.cons hxz h.tail)
        · rw [insertSorted, if_neg hxz]
          have hyz : bytesLe y z = true := (List.chain'_cons.mp h).1
          refine List.Chain'.cons hyz ?_
          have hins := ih h.tail
          rw [insertSorted, if_neg hxz] at hins
          exact hins

lemma sortLines_chain' : ∀ l, List.Chain' (fun a b => bytesLe a b = true) (sortLines l) := by
  intro l
  induction l with
  | nil => simp [sortLines]
  | cons x xs ih =>
    rw [sortLines]
    exact chain'_insertSorted x _ ih

lemma mem_insertSorted (x z : List Nat) :
    ∀ l, z ∈ insertSorted x l ↔ z = x ∨ z ∈ l := by
  intro l
  induction l with
  | nil => simp [insertSorted]
  | cons y ys ih =>
    rw [insertSorted]
    by_cases hxy : bytesLe x y = true
    · rw [if_pos hxy]
      simp
    · rw [if_neg hxy]
      simp [ih]
      tauto

lemma mem_sortLines (z : List Nat) : ∀ l, z ∈ sortLines l ↔ z ∈ l := by
  intro l
  induction l with
  | nil => simp [sortLines]
  | cons x xs ih =>
    rw [sortLines, mem_insertSorted]
    simp [List.mem_cons, ih]

lemma foldl_statLines_mem (snapshot : List StatEntry) :
    ∀ (acc : List (List Nat)) (l : List Nat),
      l ∈ snapshot.foldl (fun acc e =>
          match e.output with
          | Output.Reading => acc ++ [statLine e]
          | _ => acc) acc ↔
        l ∈ acc ∨ ∃ e ∈ snapshot, e.output = Output.Reading ∧ l = statLine e := by
  induction snapshot with
  | nil =>
    intro acc l
    simp
  | cons e rest ih =>
    intro acc l
    rw [List.foldl_cons]
    cases hout : e.output with
    | Reading =>
      dsimp only
      rw [ih]
      simp only [List.mem_append, List.mem_singleton, List.mem_cons,
        List.not_mem_nil, or_false]
      constructor
      · rintro (⟨h | h⟩ | ⟨e2, h2, h3, h4⟩)
        · exact Or.inl h
        · exact Or.inr ⟨e, Or.inl rfl, hout, h⟩
        · exact Or.inr ⟨e2, Or.inr h2, h3, h4⟩
      · rintro (h | ⟨e2, (rfl | h2), h3, h4⟩)
        · exact Or.inl (Or.inl h)
        · exact Or.inl (Or.inr h4)
        · exact Or.inr ⟨e2, h2, h3, h4⟩
    | Other =>
      dsimp only
      rw [ih]
      constructor
      · rintro (h | ⟨e2, h2, h3, h4⟩)
        · exact Or.inl h
        · exact Or.inr ⟨e2, by simp [h2], h3, h4⟩
      · rintro (h | ⟨e2, h2, h3, h4⟩)
        · exact Or.inl h
        · simp only [List.mem_cons] at h2
          rcases h2 with rfl | h2
          · rw [hout] at h3
            cases h3
          · exact Or.inr ⟨e2, h2, h3, h4⟩

/-- C8, amended: the response to `stats` consists of the
`STAT <name> <value>` lines for the snapshot's readings — all of them and
nothing else — in stable sorted (byte-lexicographic) order, separated by
CRLF and followed by one final CRLF; no `END\r\n` terminator is sent. -/
theorem C8_stats_response_amended (snapshot : List StatEntry) :
    ∃ lines : List (List Nat),
      statsResponse snapshot = joinCrlf lines ++ [13, 10] ∧
      List.Chain' (fun a b => bytesLe a b = true) lines ∧
      (∀ l ∈ lines, ∃ e ∈ snapshot, e.output = Output.Reading ∧ l = statLine e) ∧
      (∀ e ∈ snapshot, e.output = Output.Reading → statLine e ∈ lines) := by
  refine ⟨_, rfl, sortLines_chain' _, ?_, ?_⟩
  · intro l hl
    rw [mem_sortLines] at hl
    have h := (foldl_statLines_mem snapshot [] l).mp hl
    simpa using h
  · intro e he hout
    rw [mem_sortLines]
    exact (foldl_statLines_mem snapshot [] (statLine e)).mpr
      (Or.inr ⟨e, he, hout, rfl⟩)

/-- C8 counterexample to the claim as frozen: for a two-reading snapshot the
response is the sorted STAT lines, CRLF separated, with a final CRLF — and
it is not terminated by `END\r\n`. -/
theorem C8_stats_no_end_counterexample :
    statsResponse [⟨bytesOf "b", .Reading, bytesOf "2"⟩,
        ⟨bytesOf "a", .Reading, bytesOf "1"⟩] =
      bytesOf "STAT a 1\r\nSTAT b 2\r\n" ∧
    (bytesOf "END\r\n").isSuffixOf (bytesOf "STAT a 1\r\nSTAT b 2\r\n") = false := by
  exact ⟨by decide, by decide⟩

end Pelikan
